import Mathlib

/-!
Verification of the MORSE state-space core (`MorseStateSpace.h`).

The state model follows the source: a MORSE state is a compound state whose
children are either real-vector sub-states of dimension 3 (position, linear
velocity, angular velocity) or SO(3) quaternion sub-states (orientation),
laid out per body at child indices `4*body + {0,1,2,3}`, plus the mutable
`validCollision` flag.  Doubles are modelled as real numbers.  Out-of-range
or wrong-kind child access (undefined behaviour in the C++ source) is
modelled by `Option`: `none` stands for a precondition violation.
-/

namespace OmplMorse

noncomputable section

/-- `SO3StateSpace::StateType`: a quaternion with components x, y, z, w. -/
@[ext]
structure SO3State where
  x : ℝ
  y : ℝ
  z : ℝ
  w : ℝ

/-- A child of the compound MORSE state: either a `RealVectorStateSpace`
sub-state of dimension 3 (its `values` array) or an SO(3) sub-state. -/
inductive ChildState where
  | rv (values : Fin 3 → ℝ)
  | so3 (q : SO3State)

/-- `MorseStateSpace::StateType`: the compound state (ordered children) and
the mutable `validCollision` flag. -/
structure MorseState where
  components : List ChildState
  validCollision : Bool

/-- `CompoundStateSpace::StateType()` with the `validCollision(true)`
initializer of `MorseStateSpace::StateType::StateType` (children are
attached afterwards by the allocator). -/
def stateTypeNew : MorseState :=
  MorseState.mk [] true

/-- `as<RealVectorStateSpace::StateType>(i)->values`: read child `i` as a
real-vector sub-state; `none` models an out-of-range index or a child of the
wrong kind (undefined behaviour in the source). -/
def getComponentRV (s : MorseState) (i : ℕ) : Option (Fin 3 → ℝ) :=
  match s.components[i]? with
  | some (ChildState.rv v) => some v
  | _ => none

/-- `as<SO3StateSpace::StateType>(i)`: read child `i` as an SO(3) sub-state. -/
def getComponentSO3 (s : MorseState) (i : ℕ) : Option SO3State :=
  match s.components[i]? with
  | some (ChildState.so3 q) => some q
  | _ => none

/-- `StateType::getBodyPosition(body)`:
`as<RealVectorStateSpace::StateType>(body * 4)->values`. -/
def MorseState.getBodyPosition (s : MorseState) (body : ℕ) : Option (Fin 3 → ℝ) :=
  getComponentRV s (body * 4)

/-- `StateType::getBodyRotation(body)`:
`*as<SO3StateSpace::StateType>(body * 4 + 3)`. -/
def MorseState.getBodyRotation (s : MorseState) (body : ℕ) : Option SO3State :=
  getComponentSO3 s (body * 4 + 3)

/-- `StateType::getBodyLinearVelocity(body)`:
`as<RealVectorStateSpace::StateType>(body * 4 + 1)->values`. -/
def MorseState.getBodyLinearVelocity (s : MorseState) (body : ℕ) : Option (Fin 3 → ℝ) :=
  getComponentRV s (body * 4 + 1)

/-- `StateType::getBodyAngularVelocity(body)`:
`as<RealVectorStateSpace::StateType>(body * 4 + 2)->values`. -/
def MorseState.getBodyAngularVelocity (s : MorseState) (body : ℕ) : Option (Fin 3 → ℝ) :=
  getComponentRV s (body * 4 + 2)

/-- Overwriting child `i` of a state in place (the effect of writing through
a returned live view: the views returned by the accessors alias the child's
storage, so a write replaces that child's value). -/
def MorseState.setComponent (s : MorseState) (i : ℕ) (c : ChildState) : MorseState :=
  MorseState.mk (s.components.set i c) s.validCollision

/-- Writing a 3-vector through the live view returned by `getBodyPosition`. -/
def MorseState.writeBodyPosition (s : MorseState) (body : ℕ) (v : Fin 3 → ℝ) : MorseState :=
  s.setComponent (body * 4) (ChildState.rv v)

/-- Writing through the view returned by `getBodyLinearVelocity`. -/
def MorseState.writeBodyLinearVelocity (s : MorseState) (body : ℕ) (v : Fin 3 → ℝ) :
    MorseState :=
  s.setComponent (body * 4 + 1) (ChildState.rv v)

/-- Writing through the view returned by `getBodyAngularVelocity`. -/
def MorseState.writeBodyAngularVelocity (s : MorseState) (body : ℕ) (v : Fin 3 → ℝ) :
    MorseState :=
  s.setComponent (body * 4 + 2) (ChildState.rv v)

/-- Writing through the reference returned by `getBodyRotation`. -/
def MorseState.writeBodyRotation (s : MorseState) (body : ℕ) (q : SO3State) : MorseState :=
  s.setComponent (body * 4 + 3) (ChildState.so3 q)

/-- The child is a real-vector sub-state. -/
def ChildState.isRV : ChildState → Prop
  | ChildState.rv _ => True
  | ChildState.so3 _ => False

/-- The child is an SO(3) sub-state. -/
def ChildState.isSO3 : ChildState → Prop
  | ChildState.rv _ => False
  | ChildState.so3 _ => True

/-- The layout the space gives its states: `4*N` children, a real-vector
sub-state at every child index `i` with `i % 4 ≠ 3` and an SO(3) sub-state
at every index with `i % 4 = 3`. -/
def MorseLayout (N : ℕ) (s : MorseState) : Prop :=
  s.components.length = 4 * N ∧
  ∀ i c, s.components[i]? = some c →
    if i % 4 = 3 then c.isSO3 else c.isRV

/-- Axis-aligned bounds for a dimension-3 real-vector subspace
(`RealVectorBounds` with `low` and `high` per axis). -/
structure RealVectorBounds where
  low : Fin 3 → ℝ
  high : Fin 3 → ℝ

/-- The narrow environment interface the space consumes
(`control::MorseEnvironment`): the body count `rigidBodies_` and the
bounding volume enclosing all tracked geometry. -/
structure MorseEnvironment where
  rigidBodies : ℕ
  boundingVolume : RealVectorBounds

/-- Configuration errors surfaced at construction (spec §7). -/
inductive ConfigurationError where
  | zeroBodies
  | nullEnvironment

/-- The kind of one child subspace of the compound space. -/
inductive SubspaceKind where
  | position
  | linearVelocity
  | angularVelocity
  | orientation

/-- One child subspace of the compound space with the weight passed to
`CompoundStateSpace::addSubspace`. -/
structure Subspace where
  kind : SubspaceKind
  weight : ℝ

/-- The four subspaces added per body, in order: position (R^3), linear
velocity (R^3), angular velocity (R^3), orientation (SO(3)). -/
def bodySubspaces (pw lw aw ow : ℝ) : List Subspace :=
  [Subspace.mk SubspaceKind.position pw, Subspace.mk SubspaceKind.linearVelocity lw,
   Subspace.mk SubspaceKind.angularVelocity aw, Subspace.mk SubspaceKind.orientation ow]

/-- The symmetric per-axis [-1, 1] box used as the default velocity bounds. -/
def symmetricUnitBounds : RealVectorBounds :=
  RealVectorBounds.mk (fun _ => -1) (fun _ => 1)

/-- `MorseStateSpace` after construction: the environment reference `env_`,
the ordered child subspaces of the compound space, and the per-kind bounds
(one bounded box per subspace kind, shared across bodies, per spec §3). -/
structure MorseStateSpace where
  env : MorseEnvironment
  subspaces : List Subspace
  volumeBounds : RealVectorBounds
  linVelBounds : RealVectorBounds
  angVelBounds : RealVectorBounds

/-- Modelled from the spec: `MorseStateSpace::MorseStateSpace` (its
definition is not in the given header, which only declares it).  Per spec
§4.1 it fails with a `ConfigurationError` when the environment reference is
null or the environment reports zero bodies, and otherwise builds a compound
space with exactly `4N` children in per-body order position, linear
velocity, angular velocity, orientation, each with the supplied weight;
default bounds (spec §4.2) take the position box from the environment's
bounding volume and the velocity boxes as [-1, 1] per axis. -/
def mkMorseStateSpace (envRef : Option MorseEnvironment) (pw lw aw ow : ℝ) :
    Except ConfigurationError MorseStateSpace :=
  match envRef with
  | none => Except.error ConfigurationError.nullEnvironment
  | some env =>
    if env.rigidBodies = 0 then Except.error ConfigurationError.zeroBodies
    else
      Except.ok
        (MorseStateSpace.mk env
          (List.replicate env.rigidBodies (bodySubspaces pw lw aw ow)).flatten
          env.boundingVolume symmetricUnitBounds symmetricUnitBounds)

/-- Construction with the default weights (1.0, 0.5, 0.5, 1.0) of the
declared constructor signature. -/
def mkMorseStateSpaceDefault (envRef : Option MorseEnvironment) :
    Except ConfigurationError MorseStateSpace :=
  mkMorseStateSpace envRef 1 (1 / 2) (1 / 2) 1

/-- `MorseStateSpace::getNrBodies`: `return env_->rigidBodies_;`. -/
def MorseStateSpace.getNrBodies (sp : MorseStateSpace) : ℕ :=
  sp.env.rigidBodies

/-- The zero 3-vector. -/
def zeroVec : Fin 3 → ℝ :=
  fun _ => 0

/-- The four zero-initialized children allocated per body. -/
def bodyZeroChildren : List ChildState :=
  [ChildState.rv zeroVec, ChildState.rv zeroVec, ChildState.rv zeroVec,
   ChildState.so3 (SO3State.mk 0 0 0 0)]

/-- Modelled from the spec: `MorseStateSpace::allocState` (declared only in
the given header).  Per spec §4.3 it allocates a compound state with `4N`
children in the §4.1 layout, all sub-state storage zero-initialized, and
`validCollision = true` (the `StateType` constructor in the header
initializes `validCollision(true)`). -/
def MorseStateSpace.allocState (sp : MorseStateSpace) : MorseState :=
  MorseState.mk (List.replicate sp.env.rigidBodies bodyZeroChildren).flatten true

/-- A 3-vector lies within an axis-aligned bounded box. -/
def inBounds (b : RealVectorBounds) (v : Fin 3 → ℝ) : Prop :=
  ∀ i, b.low i ≤ v i ∧ v i ≤ b.high i

/-- The bounds the space configures for child index `i`: position bounds at
offset 0, linear-velocity bounds at offset 1, angular-velocity bounds at
offset 2 (offset 3, orientation, has no settable bounds). -/
def kindBounds (sp : MorseStateSpace) (i : ℕ) : RealVectorBounds :=
  if i % 4 = 0 then sp.volumeBounds
  else if i % 4 = 1 then sp.linVelBounds
  else sp.angVelBounds

/-- Modelled from the spec: `MorseStateSpace::satisfiesBoundsExceptRotation`
(declared only in the given header).  Per spec §4.2 it holds iff every
real-vector child at an index `i` with `i % 4 ≠ 3` (position, linear
velocity, angular velocity) lies within its configured bounds; the
orientation children at offsets `i % 4 = 3` are never checked. -/
def MorseStateSpace.satisfiesBoundsExceptRotation (sp : MorseStateSpace) (s : MorseState) : Prop :=
  ∀ i, i < sp.subspaces.length → i % 4 ≠ 3 →
    ∀ v, s.components[i]? = some (ChildState.rv v) → inBounds (kindBounds sp i) v

/-- Componentwise linear interpolation of a dimension-3 real-vector child:
`out = from + t * (to - from)` (spec §4.3). -/
def lerp3 (a b : Fin 3 → ℝ) (t : ℝ) : Fin 3 → ℝ :=
  fun i => a i + t * (b i - a i)

/-- The quaternion dot product. -/
def quatDot (p q : SO3State) : ℝ :=
  p.x * q.x + p.y * q.y + p.z * q.z + p.w * q.w

/-- The squared norm of a quaternion. -/
def quatNormSq (q : SO3State) : ℝ :=
  quatDot q q

/-- Componentwise negation of a quaternion (the sign flip). -/
def quatNeg (q : SO3State) : SO3State :=
  SO3State.mk (-q.x) (-q.y) (-q.z) (-q.w)

/-- The linear combination `a • p + b • q` of two quaternions. -/
def quatScaleAdd (a : ℝ) (p : SO3State) (b : ℝ) (q : SO3State) : SO3State :=
  SO3State.mk (a * p.x + b * q.x) (a * p.y + b * q.y) (a * p.z + b * q.z) (a * p.w + b * q.w)

/-- Renormalization of a quaternion to unit length (the zero quaternion,
which has no direction, is left unchanged). -/
def quatNormalize (q : SO3State) : SO3State :=
  if Real.sqrt (quatNormSq q) = 0 then q
  else
    SO3State.mk (q.x / Real.sqrt (quatNormSq q)) (q.y / Real.sqrt (quatNormSq q))
      (q.z / Real.sqrt (quatNormSq q)) (q.w / Real.sqrt (quatNormSq q))

/-- Modelled from the spec: the orientation subspace's interpolation
(`SO3StateSpace::interpolate`, an external dependency whose definition is
not in the given sources).  Per spec §4.3 it is the spherical shortest-arc
interpolation: one quaternion is sign-flipped when the dot product of the
two endpoint quaternions is negative (a dot product of exactly 0 causes no
flip, the tie-break of spec §7), the interpolant walks the great circle by
the angle `θ = arccos` of the (post-flip) dot product, and the result is
renormalized to unit length.  When `sin θ = 0` (coincident or exactly
antipodal endpoints) the interpolation is degenerate and keeps the `from`
quaternion, the defined tie-break of spec §7.  `so3Flip` is the sign-flip
step of that description. -/
def so3Flip (qa qb : SO3State) : SO3State :=
  if quatDot qa qb < 0 then quatNeg qb else qb

/-- The great-circle angle between the `from` quaternion and the
(possibly sign-flipped) `to` quaternion. -/
def so3Theta (qa qb : SO3State) : ℝ :=
  Real.arccos (quatDot qa (so3Flip qa qb))

/-- The spherical interpolant proper: see `so3Flip`, `so3Theta`. -/
def so3Interpolate (qa qb : SO3State) (t : ℝ) : SO3State :=
  if Real.sin (so3Theta qa qb) = 0 then qa
  else
    quatNormalize
      (quatScaleAdd (Real.sin ((1 - t) * so3Theta qa qb) / Real.sin (so3Theta qa qb)) qa
        (Real.sin (t * so3Theta qa qb) / Real.sin (so3Theta qa qb)) (so3Flip qa qb))

/-- Interpolation of one child: real-vector children interpolate linearly,
SO(3) children spherically (the per-subspace dispatch of
`CompoundStateSpace::interpolate`).  A kind mismatch between the two
endpoint children (undefined behaviour in the source: the states would not
both belong to the space) keeps the `from` child. -/
def childInterpolate (t : ℝ) : ChildState → ChildState → ChildState
  | ChildState.rv va, ChildState.rv vb => ChildState.rv (lerp3 va vb t)
  | ChildState.so3 qa, ChildState.so3 qb => ChildState.so3 (so3Interpolate qa qb t)
  | ca, _ => ca

/-- Modelled from the spec: `MorseStateSpace::interpolate` (declared only in
the given header).  Per spec §4.3 it interpolates every child through its
own subspace (linear for position and velocities, spherical for
orientation) and resets the `validCollision` flag of the output state to
`true`. -/
def interpolate (a b : MorseState) (t : ℝ) : MorseState :=
  MorseState.mk (List.zipWith (childInterpolate t) a.components b.components) true

/-- Two children have the same kind (belong to the same subspace type). -/
def sameKind : ChildState → ChildState → Prop
  | ChildState.rv _, ChildState.rv _ => True
  | ChildState.so3 _, ChildState.so3 _ => True
  | _, _ => False

/-- The identity quaternion. -/
def qId : SO3State :=
  SO3State.mk 0 0 0 1

/-- The identity quaternion with both signs flipped on w (the same rotation,
opposite quaternion sign). -/
def qIdNeg : SO3State :=
  SO3State.mk 0 0 0 (-1)

/-- A concrete one-body state used to instantiate proved theorems. -/
def sampleA : MorseState :=
  MorseState.mk
    [ChildState.rv zeroVec, ChildState.rv zeroVec, ChildState.rv zeroVec, ChildState.so3 qId]
    true

/-- A concrete one-body state whose orientation is the sign-flipped
identity quaternion. -/
def sampleB : MorseState :=
  MorseState.mk
    [ChildState.rv zeroVec, ChildState.rv zeroVec, ChildState.rv zeroVec, ChildState.so3 qIdNeg]
    true

/-- A concrete one-body environment whose bounding volume is the unit box. -/
def sampleEnv : MorseEnvironment :=
  MorseEnvironment.mk 1 symmetricUnitBounds

/-- The concrete space built for `sampleEnv` with the default weights. -/
def sampleSpace : MorseStateSpace :=
  MorseStateSpace.mk sampleEnv (bodySubspaces 1 (1 / 2) (1 / 2) 1) symmetricUnitBounds
    symmetricUnitBounds symmetricUnitBounds

end

namespace Lemmas

/-- Length of the flattened replication. -/
theorem flatten_replicate_length {α : Type} (l : List α) (n : ℕ) :
    ((List.replicate n l).flatten).length = n * l.length := by
  induction n with
  | zero => simp
  | succ n ih =>
    rw [List.replicate_succ, List.flatten_cons, List.length_append, ih]
    ring

/-- Indexing into the flattened replication reduces modulo the block length. -/
theorem flatten_replicate_getElem {α : Type} (l : List α) :
    ∀ n i : ℕ, i < n * l.length →
      ((List.replicate n l).flatten)[i]? = l[i % l.length]? := by
  intro n
  induction n with
  | zero => intro i h; omega
  | succ n ih =>
    intro i h
    have hmul : (n + 1) * l.length = n * l.length + l.length := by ring
    rw [List.replicate_succ, List.flatten_cons, List.getElem?_append]
    by_cases hi : i < l.length
    · rw [if_pos hi, Nat.mod_eq_of_lt hi]
    · have hle : l.length ≤ i := le_of_not_lt hi
      rw [if_neg hi, ih (i - l.length) (by omega), Nat.mod_eq_sub_mod hle]

/-- Getting an element of a zipWith from the two lists' elements. -/
theorem zipWith_getElem_some {α β γ : Type} {f : α → β → γ} {l1 : List α} {l2 : List β}
    {i : ℕ} {a : α} {b : β} (h1 : l1[i]? = some a) (h2 : l2[i]? = some b) :
    (List.zipWith f l1 l2)[i]? = some (f a b) := by
  rw [List.getElem?_zipWith]
  rw [h1, h2]

/-- Reading child `i` as a real-vector sub-state when it is one. -/
theorem getComponentRV_eq {s : MorseState} {i : ℕ} {v : Fin 3 → ℝ}
    (h : s.components[i]? = some (ChildState.rv v)) : getComponentRV s i = some v := by
  unfold getComponentRV
  rw [h]

/-- Reading child `i` as an SO(3) sub-state when it is one. -/
theorem getComponentSO3_eq {s : MorseState} {i : ℕ} {q : SO3State}
    (h : s.components[i]? = some (ChildState.so3 q)) : getComponentSO3 s i = some q := by
  unfold getComponentSO3
  rw [h]

/-- Reading past the end of the children yields the precondition violation. -/
theorem getComponentRV_none {s : MorseState} {i : ℕ} (h : s.components.length ≤ i) :
    getComponentRV s i = none := by
  unfold getComponentRV
  rw [List.getElem?_eq_none h]

/-- Reading past the end of the children yields the precondition violation. -/
theorem getComponentSO3_none {s : MorseState} {i : ℕ} (h : s.components.length ≤ i) :
    getComponentSO3 s i = none := by
  unfold getComponentSO3
  rw [List.getElem?_eq_none h]

/-- In a laid-out state, every child at an offset other than 3 is a
real-vector sub-state. -/
theorem layout_rv_at {N : ℕ} {s : MorseState} (h : MorseLayout N s) {i : ℕ}
    (hi : i < 4 * N) (hm : i % 4 ≠ 3) :
    ∃ v, s.components[i]? = some (ChildState.rv v) := by
  have hlen : i < s.components.length := by rw [h.1]; exact hi
  rcases hx : s.components[i]? with _ | c
  · rw [List.getElem?_eq_none_iff] at hx
    omega
  · have hc := h.2 i c hx
    rw [if_neg hm] at hc
    cases c with
    | rv v => exact ⟨v, rfl⟩
    | so3 q => simp [ChildState.isRV] at hc

/-- In a laid-out state, every child at offset 3 is an SO(3) sub-state. -/
theorem layout_so3_at {N : ℕ} {s : MorseState} (h : MorseLayout N s) {i : ℕ}
    (hi : i < 4 * N) (hm : i % 4 = 3) :
    ∃ q, s.components[i]? = some (ChildState.so3 q) := by
  have hlen : i < s.components.length := by rw [h.1]; exact hi
  rcases hx : s.components[i]? with _ | c
  · rw [List.getElem?_eq_none_iff] at hx
    omega
  · have hc := h.2 i c hx
    rw [if_pos hm] at hc
    cases c with
    | rv v => simp [ChildState.isSO3] at hc
    | so3 q => exact ⟨q, rfl⟩

/-- The concrete one-body states have the one-body layout. -/
theorem morseLayout_one (v0 v1 v2 : Fin 3 → ℝ) (q : SO3State) (flag : Bool) :
    MorseLayout 1
      (MorseState.mk
        [ChildState.rv v0, ChildState.rv v1, ChildState.rv v2, ChildState.so3 q] flag) := by
  constructor
  · rfl
  · intro i c hc
    have hcases : i = 0 ∨ i = 1 ∨ i = 2 ∨ i = 3 ∨ 4 ≤ i := by omega
    rcases hcases with h | h | h | h | h
    · subst h
      simp only [List.getElem?_cons_zero, Option.some.injEq] at hc
      subst hc
      simp [ChildState.isRV]
    · subst h
      simp only [List.getElem?_cons_succ, List.getElem?_cons_zero, Option.some.injEq] at hc
      subst hc
      simp [ChildState.isRV]
    · subst h
      simp only [List.getElem?_cons_succ, List.getElem?_cons_zero, Option.some.injEq] at hc
      subst hc
      simp [ChildState.isRV]
    · subst h
      simp only [List.getElem?_cons_succ, List.getElem?_cons_zero, Option.some.injEq] at hc
      subst hc
      simp [ChildState.isSO3]
    · have hnone : ([ChildState.rv v0, ChildState.rv v1, ChildState.rv v2,
          ChildState.so3 q] : List ChildState)[i]? = none := by
        rw [List.getElem?_eq_none]
        simpa using h
      rw [hnone] at hc
      exact Option.noConfusion hc

/-- Setting one child leaves every other child unchanged. -/
theorem setComponent_getElem_ne {s : MorseState} {i j : ℕ} (h : i ≠ j) (c : ChildState) :
    (s.setComponent i c).components[j]? = s.components[j]? := by
  unfold MorseState.setComponent
  exact List.getElem?_set_ne h

/-- Setting one child leaves real-vector reads of every other child
unchanged. -/
theorem getComponentRV_set_ne {s : MorseState} {i j : ℕ} (h : i ≠ j) (c : ChildState) :
    getComponentRV (s.setComponent i c) j = getComponentRV s j := by
  unfold getComponentRV
  rw [setComponent_getElem_ne h c]

/-- Setting one child leaves SO(3) reads of every other child unchanged. -/
theorem getComponentSO3_set_ne {s : MorseState} {i j : ℕ} (h : i ≠ j) (c : ChildState) :
    getComponentSO3 (s.setComponent i c) j = getComponentSO3 s j := by
  unfold getComponentSO3
  rw [setComponent_getElem_ne h c]

end Lemmas

/-- C1: for every laid-out state and every body index `body < N`, the
body-indexed accessors return the sub-states stored at the fixed child
offsets: `getBodyPosition` the real-vector child at index `4*body`,
`getBodyLinearVelocity` at `4*body + 1`, `getBodyAngularVelocity` at
`4*body + 2`, and `getBodyRotation` the SO(3) child at `4*body + 3`; each
returns exactly the stored child (the view into that child's storage), with
no copy made. -/
theorem getBody_accessors_fixed_offsets (s : MorseState) (N body : ℕ)
    (hlay : MorseLayout N s) (hb : body < N) :
    (∃ v, s.components[4 * body]? = some (ChildState.rv v) ∧
      s.getBodyPosition body = some v) ∧
    (∃ v, s.components[4 * body + 1]? = some (ChildState.rv v) ∧
      s.getBodyLinearVelocity body = some v) ∧
    (∃ v, s.components[4 * body + 2]? = some (ChildState.rv v) ∧
      s.getBodyAngularVelocity body = some v) ∧
    (∃ q, s.components[4 * body + 3]? = some (ChildState.so3 q) ∧
      s.getBodyRotation body = some q) := by
  have hmul : body * 4 = 4 * body := by ring
  obtain ⟨v0, hv0⟩ := @Lemmas.layout_rv_at N s hlay (4 * body) (by omega) (by omega)
  obtain ⟨v1, hv1⟩ := @Lemmas.layout_rv_at N s hlay (4 * body + 1) (by omega) (by omega)
  obtain ⟨v2, hv2⟩ := @Lemmas.layout_rv_at N s hlay (4 * body + 2) (by omega) (by omega)
  obtain ⟨q3, hq3⟩ := @Lemmas.layout_so3_at N s hlay (4 * body + 3) (by omega) (by omega)
  refine ⟨⟨v0, hv0, ?_⟩, ⟨v1, hv1, ?_⟩, ⟨v2, hv2, ?_⟩, ⟨q3, hq3, ?_⟩⟩
  · unfold MorseState.getBodyPosition
    rw [hmul]
    exact Lemmas.getComponentRV_eq hv0
  · unfold MorseState.getBodyLinearVelocity
    rw [hmul]
    exact Lemmas.getComponentRV_eq hv1
  · unfold MorseState.getBodyAngularVelocity
    rw [hmul]
    exact Lemmas.getComponentRV_eq hv2
  · unfold MorseState.getBodyRotation
    rw [hmul]
    exact Lemmas.getComponentSO3_eq hq3

/-- Witness for C1 at the concrete one-body state `sampleA` and body 0. -/
theorem getBody_accessors_fixed_offsets_witness :
    (∃ v, sampleA.components[4 * 0]? = some (ChildState.rv v) ∧
      sampleA.getBodyPosition 0 = some v) ∧
    (∃ v, sampleA.components[4 * 0 + 1]? = some (ChildState.rv v) ∧
      sampleA.getBodyLinearVelocity 0 = some v) ∧
    (∃ v, sampleA.components[4 * 0 + 2]? = some (ChildState.rv v) ∧
      sampleA.getBodyAngularVelocity 0 = some v) ∧
    (∃ q, sampleA.components[4 * 0 + 3]? = some (ChildState.so3 q) ∧
      sampleA.getBodyRotation 0 = some q) :=
  getBody_accessors_fixed_offsets sampleA 1 0
    (Lemmas.morseLayout_one zeroVec zeroVec zeroVec qId true) (by omega)

/-- C2: on a laid-out state, every body-indexed accessor hits the
precondition violation (modelled `none`) when `body ≥ N`; under the
precondition `body < N` the accessed child index `4*body + offset` is
within the `4N` children and all four accessors succeed. -/
theorem getBody_accessors_precondition (s : MorseState) (N body : ℕ)
    (hlay : MorseLayout N s) :
    (N ≤ body →
      s.getBodyPosition body = none ∧ s.getBodyLinearVelocity body = none ∧
      s.getBodyAngularVelocity body = none ∧ s.getBodyRotation body = none) ∧
    (body < N →
      4 * body + 3 < 4 * N ∧
      (s.getBodyPosition body).isSome = true ∧
      (s.getBodyLinearVelocity body).isSome = true ∧
      (s.getBodyAngularVelocity body).isSome = true ∧
      (s.getBodyRotation body).isSome = true) := by
  have hlen := hlay.1
  have hmul : body * 4 = 4 * body := by ring
  constructor
  · intro hge
    exact ⟨Lemmas.getComponentRV_none (by omega), Lemmas.getComponentRV_none (by omega),
      Lemmas.getComponentRV_none (by omega), Lemmas.getComponentSO3_none (by omega)⟩
  · intro hlt
    obtain ⟨v0, hv0⟩ := @Lemmas.layout_rv_at N s hlay (4 * body) (by omega) (by omega)
    obtain ⟨v1, hv1⟩ := @Lemmas.layout_rv_at N s hlay (4 * body + 1) (by omega) (by omega)
    obtain ⟨v2, hv2⟩ := @Lemmas.layout_rv_at N s hlay (4 * body + 2) (by omega) (by omega)
    obtain ⟨q3, hq3⟩ := @Lemmas.layout_so3_at N s hlay (4 * body + 3) (by omega) (by omega)
    refine ⟨by omega, ?_, ?_, ?_, ?_⟩
    · unfold MorseState.getBodyPosition
      rw [hmul, Lemmas.getComponentRV_eq hv0]
      rfl
    · unfold MorseState.getBodyLinearVelocity
      rw [hmul, Lemmas.getComponentRV_eq hv1]
      rfl
    · unfold MorseState.getBodyAngularVelocity
      rw [hmul, Lemmas.getComponentRV_eq hv2]
      rfl
    · unfold MorseState.getBodyRotation
      rw [hmul, Lemmas.getComponentSO3_eq hq3]
      rfl

/-- Witness for C2 at the concrete one-body state `sampleA` and body 0. -/
theorem getBody_accessors_precondition_witness :
    (1 ≤ 0 →
      sampleA.getBodyPosition 0 = none ∧ sampleA.getBodyLinearVelocity 0 = none ∧
      sampleA.getBodyAngularVelocity 0 = none ∧ sampleA.getBodyRotation 0 = none) ∧
    (0 < 1 →
      4 * 0 + 3 < 4 * 1 ∧
      (sampleA.getBodyPosition 0).isSome = true ∧
      (sampleA.getBodyLinearVelocity 0).isSome = true ∧
      (sampleA.getBodyAngularVelocity 0).isSome = true ∧
      (sampleA.getBodyRotation 0).isSome = true) :=
  getBody_accessors_precondition sampleA 1 0
    (Lemmas.morseLayout_one zeroVec zeroVec zeroVec qId true)

/-- C10: the four accessors of a body address four pairwise-distinct
children, children of different bodies are disjoint (the child index
`4*b + k` with `k < 4` determines `b` and `k`), and writing through one
accessor never changes the value observed through an accessor of another
child: generically for `setComponent`, and in particular for writes through
the position and rotation views against every other accessor. -/
theorem accessor_children_disjoint (s : MorseState) (b b2 k k2 : ℕ) (v : Fin 3 → ℝ)
    (q : SO3State) (hk : k < 4) (hk2 : k2 < 4) :
    ((4 * b + k = 4 * b2 + k2) ↔ (b = b2 ∧ k = k2)) ∧
    (¬(b = b2 ∧ k = k2) →
      ∀ c, (s.setComponent (4 * b + k) c).components[4 * b2 + k2]? =
        s.components[4 * b2 + k2]?) ∧
    (b ≠ b2 → (s.writeBodyPosition b v).getBodyPosition b2 = s.getBodyPosition b2) ∧
    ((s.writeBodyPosition b v).getBodyLinearVelocity b2 = s.getBodyLinearVelocity b2) ∧
    ((s.writeBodyPosition b v).getBodyAngularVelocity b2 = s.getBodyAngularVelocity b2) ∧
    ((s.writeBodyPosition b v).getBodyRotation b2 = s.getBodyRotation b2) ∧
    (b ≠ b2 → (s.writeBodyRotation b q).getBodyRotation b2 = s.getBodyRotation b2) ∧
    ((s.writeBodyRotation b q).getBodyPosition b2 = s.getBodyPosition b2) ∧
    ((s.writeBodyRotation b q).getBodyLinearVelocity b2 = s.getBodyLinearVelocity b2) ∧
    ((s.writeBodyRotation b q).getBodyAngularVelocity b2 = s.getBodyAngularVelocity b2) := by
  refine ⟨by omega, ?_, ?_, ?_, ?_, ?_, ?_, ?_, ?_, ?_⟩
  · intro hne c
    exact Lemmas.setComponent_getElem_ne (by omega) c
  · intro hne
    exact Lemmas.getComponentRV_set_ne (by omega) _
  · exact Lemmas.getComponentRV_set_ne (by omega) _
  · exact Lemmas.getComponentRV_set_ne (by omega) _
  · exact Lemmas.getComponentSO3_set_ne (by omega) _
  · intro hne
    exact Lemmas.getComponentSO3_set_ne (by omega) _
  · exact Lemmas.getComponentRV_set_ne (by omega) _
  · exact Lemmas.getComponentRV_set_ne (by omega) _
  · exact Lemmas.getComponentRV_set_ne (by omega) _

/-- Witness for C10 at the concrete state `sampleA`, bodies 0 and 1,
offsets 0 and 3. -/
theorem accessor_children_disjoint_witness :
    ((4 * 0 + 0 = 4 * 1 + 3) ↔ ((0 : ℕ) = 1 ∧ (0 : ℕ) = 3)) ∧
    (¬((0 : ℕ) = 1 ∧ (0 : ℕ) = 3) →
      ∀ c, (sampleA.setComponent (4 * 0 + 0) c).components[4 * 1 + 3]? =
        sampleA.components[4 * 1 + 3]?) ∧
    ((0 : ℕ) ≠ 1 →
      (sampleA.writeBodyPosition 0 zeroVec).getBodyPosition 1 = sampleA.getBodyPosition 1) ∧
    ((sampleA.writeBodyPosition 0 zeroVec).getBodyLinearVelocity 1 =
      sampleA.getBodyLinearVelocity 1) ∧
    ((sampleA.writeBodyPosition 0 zeroVec).getBodyAngularVelocity 1 =
      sampleA.getBodyAngularVelocity 1) ∧
    ((sampleA.writeBodyPosition 0 zeroVec).getBodyRotation 1 = sampleA.getBodyRotation 1) ∧
    ((0 : ℕ) ≠ 1 →
      (sampleA.writeBodyRotation 0 qId).getBodyRotation 1 = sampleA.getBodyRotation 1) ∧
    ((sampleA.writeBodyRotation 0 qId).getBodyPosition 1 = sampleA.getBodyPosition 1) ∧
    ((sampleA.writeBodyRotation 0 qId).getBodyLinearVelocity 1 =
      sampleA.getBodyLinearVelocity 1) ∧
    ((sampleA.writeBodyRotation 0 qId).getBodyAngularVelocity 1 =
      sampleA.getBodyAngularVelocity 1) :=
  accessor_children_disjoint sampleA 0 1 0 3 zeroVec qId (by omega) (by omega)

namespace Lemmas

/-- Inversion: a successful real-vector read means the child is stored
as that real-vector sub-state. -/
theorem getComponentRV_eq_some {s : MorseState} {i : ℕ} {v : Fin 3 → ℝ}
    (h : getComponentRV s i = some v) : s.components[i]? = some (ChildState.rv v) := by
  unfold getComponentRV at h
  rcases hx : s.components[i]? with _ | c
  · rw [hx] at h
    exact Option.noConfusion h
  · rw [hx] at h
    cases c with
    | rv w =>
      rw [Option.some.injEq] at h
      rw [h]
    | so3 p => exact Option.noConfusion h

/-- The bounds configured at a position child index. -/
theorem kindBounds_position (sp : MorseStateSpace) (b : ℕ) :
    kindBounds sp (4 * b) = sp.volumeBounds := by
  unfold kindBounds
  have h0 : (4 * b) % 4 = 0 := by omega
  rw [h0]
  norm_num

/-- The bounds configured at a linear-velocity child index. -/
theorem kindBounds_linVel (sp : MorseStateSpace) (b : ℕ) :
    kindBounds sp (4 * b + 1) = sp.linVelBounds := by
  unfold kindBounds
  have h0 : (4 * b + 1) % 4 = 1 := by omega
  rw [h0]
  norm_num

/-- The bounds configured at an angular-velocity child index. -/
theorem kindBounds_angVel (sp : MorseStateSpace) (b : ℕ) :
    kindBounds sp (4 * b + 2) = sp.angVelBounds := by
  unfold kindBounds
  have h0 : (4 * b + 2) % 4 = 2 := by omega
  rw [h0]
  norm_num

end Lemmas

/-- C3: on a laid-out state of a space with `4N` subspaces,
`satisfiesBoundsExceptRotation` holds iff every position, linear-velocity
and angular-velocity sub-state of every body lies within its configured
bounds; the orientation children are never checked, so replacing any
orientation child by an arbitrary quaternion never changes the result. -/
theorem satisfiesBoundsExceptRot_iff (sp : MorseStateSpace) (s : MorseState) (N : ℕ)
    (hsub : sp.subspaces.length = 4 * N) (_hlay : MorseLayout N s) :
    (sp.satisfiesBoundsExceptRotation s ↔
      ∀ b, b < N →
        (∀ v, s.getBodyPosition b = some v → inBounds sp.volumeBounds v) ∧
        (∀ v, s.getBodyLinearVelocity b = some v → inBounds sp.linVelBounds v) ∧
        (∀ v, s.getBodyAngularVelocity b = some v → inBounds sp.angVelBounds v)) ∧
    (∀ b q,
      sp.satisfiesBoundsExceptRotation (s.setComponent (4 * b + 3) (ChildState.so3 q)) ↔
        sp.satisfiesBoundsExceptRotation s) := by
  constructor
  · constructor
    · intro h b hb
      have hmul : b * 4 = 4 * b := by ring
      refine ⟨?_, ?_, ?_⟩
      · intro v hv
        unfold MorseState.getBodyPosition at hv
        rw [hmul] at hv
        have hc := Lemmas.getComponentRV_eq_some hv
        have := h (4 * b) (by omega) (by omega) v hc
        rwa [Lemmas.kindBounds_position] at this
      · intro v hv
        unfold MorseState.getBodyLinearVelocity at hv
        rw [hmul] at hv
        have hc := Lemmas.getComponentRV_eq_some hv
        have := h (4 * b + 1) (by omega) (by omega) v hc
        rwa [Lemmas.kindBounds_linVel] at this
      · intro v hv
        unfold MorseState.getBodyAngularVelocity at hv
        rw [hmul] at hv
        have hc := Lemmas.getComponentRV_eq_some hv
        have := h (4 * b + 2) (by omega) (by omega) v hc
        rwa [Lemmas.kindBounds_angVel] at this
    · intro h i hi him v hv
      have hi4 : 4 * (i / 4) + i % 4 = i := Nat.div_add_mod i 4
      have hb : i / 4 < N := by omega
      have hmul : (i / 4) * 4 = 4 * (i / 4) := by ring
      obtain ⟨hp, hl, ha⟩ := h (i / 4) hb
      have hr : i % 4 = 0 ∨ i % 4 = 1 ∨ i % 4 = 2 := by omega
      rcases hr with hr | hr | hr
      · have hieq : i = 4 * (i / 4) := by omega
        rw [hieq] at hv ⊢
        rw [Lemmas.kindBounds_position]
        apply hp
        unfold MorseState.getBodyPosition
        rw [hmul]
        exact Lemmas.getComponentRV_eq hv
      · have hieq : i = 4 * (i / 4) + 1 := by omega
        rw [hieq] at hv ⊢
        rw [Lemmas.kindBounds_linVel]
        apply hl
        unfold MorseState.getBodyLinearVelocity
        rw [hmul]
        exact Lemmas.getComponentRV_eq hv
      · have hieq : i = 4 * (i / 4) + 2 := by omega
        rw [hieq] at hv ⊢
        rw [Lemmas.kindBounds_angVel]
        apply ha
        unfold MorseState.getBodyAngularVelocity
        rw [hmul]
        exact Lemmas.getComponentRV_eq hv
  · intro b q
    constructor
    · intro h i hi him v hv
      apply h i hi him v
      rw [Lemmas.setComponent_getElem_ne (show 4 * b + 3 ≠ i by omega) _]
      exact hv
    · intro h i hi him v hv
      apply h i hi him v
      rw [Lemmas.setComponent_getElem_ne (show 4 * b + 3 ≠ i by omega) _] at hv
      exact hv

/-- Witness for C3 at the concrete space `sampleSpace` and state `sampleA`. -/
theorem satisfiesBoundsExceptRot_iff_witness :
    (sampleSpace.satisfiesBoundsExceptRotation sampleA ↔
      ∀ b, b < 1 →
        (∀ v, sampleA.getBodyPosition b = some v → inBounds sampleSpace.volumeBounds v) ∧
        (∀ v, sampleA.getBodyLinearVelocity b = some v →
          inBounds sampleSpace.linVelBounds v) ∧
        (∀ v, sampleA.getBodyAngularVelocity b = some v →
          inBounds sampleSpace.angVelBounds v)) ∧
    (∀ b q,
      sampleSpace.satisfiesBoundsExceptRotation
          (sampleA.setComponent (4 * b + 3) (ChildState.so3 q)) ↔
        sampleSpace.satisfiesBoundsExceptRotation sampleA) :=
  satisfiesBoundsExceptRot_iff sampleSpace sampleA 1 (by rfl)
    (Lemmas.morseLayout_one zeroVec zeroVec zeroVec qId true)

namespace Lemmas

/-- The children of an allocated state: `4N` of them, and child `i` is the
zero child of offset `i % 4`. -/
theorem allocState_getElem {sp : MorseStateSpace} {i : ℕ} {c : ChildState}
    (h : (sp.allocState).components[i]? = some c) :
    i < 4 * sp.env.rigidBodies ∧ bodyZeroChildren[i % 4]? = some c := by
  have hbl : bodyZeroChildren.length = 4 := rfl
  have hlen : (sp.allocState).components.length = sp.env.rigidBodies * 4 := by
    unfold MorseStateSpace.allocState
    rw [flatten_replicate_length, hbl]
  have hsome : ¬((sp.allocState).components[i]? = none) := by
    rw [h]
    exact Option.noConfusion
  have hil : i < (sp.allocState).components.length := by
    by_contra hge
    exact hsome (List.getElem?_eq_none (by omega))
  have hi4 : i < 4 * sp.env.rigidBodies := by omega
  refine ⟨hi4, ?_⟩
  have hrw := flatten_replicate_getElem bodyZeroChildren sp.env.rigidBodies i
    (by rw [hbl]; omega)
  unfold MorseStateSpace.allocState at h
  rw [hrw] at h
  rw [hbl] at h
  exact h

/-- Reduction of the modelled constructor on a non-null environment. -/
theorem mkMorseStateSpace_some (env : MorseEnvironment) (pw lw aw ow : ℝ) :
    mkMorseStateSpace (some env) pw lw aw ow =
      if env.rigidBodies = 0 then Except.error ConfigurationError.zeroBodies
      else
        Except.ok
          (MorseStateSpace.mk env
            (List.replicate env.rigidBodies (bodySubspaces pw lw aw ow)).flatten
            env.boundingVolume symmetricUnitBounds symmetricUnitBounds) :=
  rfl

/-- The length of the allocated state's children list. -/
theorem allocState_length (sp : MorseStateSpace) :
    (sp.allocState).components.length = 4 * sp.env.rigidBodies := by
  have hbl : bodyZeroChildren.length = 4 := rfl
  unfold MorseStateSpace.allocState
  rw [flatten_replicate_length, hbl]
  ring

end Lemmas

/-- C7: every newly constructed state carries `validCollision = true` (the
`StateType` constructor), and `allocState` returns a compound state with
`4N` children in the per-body layout whose real-vector children are all the
zero vector and whose SO(3) children are all zero-initialized, with
`validCollision = true`. -/
theorem allocState_spec (sp : MorseStateSpace) :
    stateTypeNew.validCollision = true ∧
    (sp.allocState).validCollision = true ∧
    (sp.allocState).components.length = 4 * sp.getNrBodies ∧
    MorseLayout sp.getNrBodies sp.allocState ∧
    (∀ (i : ℕ) (v : Fin 3 → ℝ),
      (sp.allocState).components[i]? = some (ChildState.rv v) → v = zeroVec) ∧
    (∀ (i : ℕ) (q : SO3State),
      (sp.allocState).components[i]? = some (ChildState.so3 q) →
      q = SO3State.mk 0 0 0 0) := by
  have helem : ∀ i c, (sp.allocState).components[i]? = some c →
      bodyZeroChildren[i % 4]? = some c := by
    intro i c h
    exact (Lemmas.allocState_getElem h).2
  refine ⟨rfl, rfl, Lemmas.allocState_length sp, ⟨Lemmas.allocState_length sp, ?_⟩, ?_, ?_⟩
  · intro i c hc
    have hz := helem i c hc
    have hr : i % 4 = 0 ∨ i % 4 = 1 ∨ i % 4 = 2 ∨ i % 4 = 3 := by omega
    rcases hr with hr | hr | hr | hr
    · rw [hr] at hz ⊢
      simp only [bodyZeroChildren, List.getElem?_cons_zero, Option.some.injEq] at hz
      rw [← hz]
      simp [ChildState.isRV]
    · rw [hr] at hz ⊢
      simp only [bodyZeroChildren, List.getElem?_cons_zero, List.getElem?_cons_succ,
        Option.some.injEq] at hz
      rw [← hz]
      simp [ChildState.isRV]
    · rw [hr] at hz ⊢
      simp only [bodyZeroChildren, List.getElem?_cons_zero, List.getElem?_cons_succ,
        Option.some.injEq] at hz
      rw [← hz]
      simp [ChildState.isRV]
    · rw [hr] at hz ⊢
      simp only [bodyZeroChildren, List.getElem?_cons_zero, List.getElem?_cons_succ,
        Option.some.injEq] at hz
      rw [← hz]
      simp [ChildState.isSO3]
  · intro i v hv
    have hz := helem i (ChildState.rv v) hv
    have hr : i % 4 = 0 ∨ i % 4 = 1 ∨ i % 4 = 2 ∨ i % 4 = 3 := by omega
    rcases hr with hr | hr | hr | hr
    all_goals rw [hr] at hz
    all_goals simp only [bodyZeroChildren, List.getElem?_cons_zero, List.getElem?_cons_succ,
      Option.some.injEq] at hz
    · exact ((ChildState.rv.injEq zeroVec v).mp hz).symm
    · exact ((ChildState.rv.injEq zeroVec v).mp hz).symm
    · exact ((ChildState.rv.injEq zeroVec v).mp hz).symm
    · exact absurd hz (by simp)
  · intro i q hq
    have hz := helem i (ChildState.so3 q) hq
    have hr : i % 4 = 0 ∨ i % 4 = 1 ∨ i % 4 = 2 ∨ i % 4 = 3 := by omega
    rcases hr with hr | hr | hr | hr
    all_goals rw [hr] at hz
    all_goals simp only [bodyZeroChildren, List.getElem?_cons_zero, List.getElem?_cons_succ,
      Option.some.injEq] at hz
    · exact absurd hz (by simp)
    · exact absurd hz (by simp)
    · exact absurd hz (by simp)
    · exact ((ChildState.so3.injEq (SO3State.mk 0 0 0 0) q).mp hz).symm

/-- C8: construction fails with `ConfigurationError.nullEnvironment` on a
null environment reference and with `ConfigurationError.zeroBodies` when
the environment reports no bodies; for `N ≥ 1` it succeeds and the compound
space has exactly `4N` child subspaces in per-body order position, linear
velocity, angular velocity, orientation with the given weights, the default
weights being (1.0, 0.5, 0.5, 1.0). -/
theorem mkMorseStateSpace_spec (env : MorseEnvironment) (pw lw aw ow : ℝ) :
    mkMorseStateSpace none pw lw aw ow = Except.error ConfigurationError.nullEnvironment ∧
    (env.rigidBodies = 0 →
      mkMorseStateSpace (some env) pw lw aw ow = Except.error ConfigurationError.zeroBodies) ∧
    (1 ≤ env.rigidBodies →
      ∃ sp, mkMorseStateSpace (some env) pw lw aw ow = Except.ok sp) ∧
    (∀ sp, mkMorseStateSpace (some env) pw lw aw ow = Except.ok sp →
      1 ≤ env.rigidBodies ∧
      sp.subspaces.length = 4 * env.rigidBodies ∧
      ∀ b, b < env.rigidBodies →
        sp.subspaces[4 * b]? = some (Subspace.mk SubspaceKind.position pw) ∧
        sp.subspaces[4 * b + 1]? = some (Subspace.mk SubspaceKind.linearVelocity lw) ∧
        sp.subspaces[4 * b + 2]? = some (Subspace.mk SubspaceKind.angularVelocity aw) ∧
        sp.subspaces[4 * b + 3]? = some (Subspace.mk SubspaceKind.orientation ow)) ∧
    mkMorseStateSpaceDefault (some env) = mkMorseStateSpace (some env) 1 (1 / 2) (1 / 2) 1 := by
  have hbl : (bodySubspaces pw lw aw ow).length = 4 := rfl
  refine ⟨rfl, ?_, ?_, ?_, rfl⟩
  · intro h0
    rw [Lemmas.mkMorseStateSpace_some, if_pos h0]
  · intro h1
    rw [Lemmas.mkMorseStateSpace_some, if_neg (show ¬env.rigidBodies = 0 by omega)]
    exact ⟨_, rfl⟩
  · intro sp hsp
    rw [Lemmas.mkMorseStateSpace_some] at hsp
    by_cases h0 : env.rigidBodies = 0
    · rw [if_pos h0] at hsp
      exact Except.noConfusion hsp
    · rw [if_neg h0] at hsp
      rw [Except.ok.injEq] at hsp
      subst hsp
      refine ⟨by omega, ?_, ?_⟩
      · rw [Lemmas.flatten_replicate_length, hbl]
        ring
      · intro b hb
        have h0e := Lemmas.flatten_replicate_getElem (bodySubspaces pw lw aw ow)
          env.rigidBodies (4 * b) (by rw [hbl]; omega)
        have h1e := Lemmas.flatten_replicate_getElem (bodySubspaces pw lw aw ow)
          env.rigidBodies (4 * b + 1) (by rw [hbl]; omega)
        have h2e := Lemmas.flatten_replicate_getElem (bodySubspaces pw lw aw ow)
          env.rigidBodies (4 * b + 2) (by rw [hbl]; omega)
        have h3e := Lemmas.flatten_replicate_getElem (bodySubspaces pw lw aw ow)
          env.rigidBodies (4 * b + 3) (by rw [hbl]; omega)
        rw [hbl] at h0e h1e h2e h3e
        rw [show (4 * b) % 4 = 0 by omega] at h0e
        rw [show (4 * b + 1) % 4 = 1 by omega] at h1e
        rw [show (4 * b + 2) % 4 = 2 by omega] at h2e
        rw [show (4 * b + 3) % 4 = 3 by omega] at h3e
        exact ⟨h0e, h1e, h2e, h3e⟩

/-- Witness for C8 at the concrete one-body environment `sampleEnv`. -/
theorem mkMorseStateSpace_spec_witness :
    mkMorseStateSpace none 1 (1 / 2) (1 / 2) 1 =
      Except.error ConfigurationError.nullEnvironment ∧
    (sampleEnv.rigidBodies = 0 →
      mkMorseStateSpace (some sampleEnv) 1 (1 / 2) (1 / 2) 1 =
        Except.error ConfigurationError.zeroBodies) ∧
    (1 ≤ sampleEnv.rigidBodies →
      ∃ sp, mkMorseStateSpace (some sampleEnv) 1 (1 / 2) (1 / 2) 1 = Except.ok sp) ∧
    (∀ sp, mkMorseStateSpace (some sampleEnv) 1 (1 / 2) (1 / 2) 1 = Except.ok sp →
      1 ≤ sampleEnv.rigidBodies ∧
      sp.subspaces.length = 4 * sampleEnv.rigidBodies ∧
      ∀ b, b < sampleEnv.rigidBodies →
        sp.subspaces[4 * b]? = some (Subspace.mk SubspaceKind.position 1) ∧
        sp.subspaces[4 * b + 1]? = some (Subspace.mk SubspaceKind.linearVelocity (1 / 2)) ∧
        sp.subspaces[4 * b + 2]? = some (Subspace.mk SubspaceKind.angularVelocity (1 / 2)) ∧
        sp.subspaces[4 * b + 3]? = some (Subspace.mk SubspaceKind.orientation 1)) ∧
    mkMorseStateSpaceDefault (some sampleEnv) =
      mkMorseStateSpace (some sampleEnv) 1 (1 / 2) (1 / 2) 1 :=
  mkMorseStateSpace_spec sampleEnv 1 (1 / 2) (1 / 2) 1

/-- C9: `getNrBodies` returns the body count `N` fixed at construction and
taken from the environment; the space value never changes it afterwards
(reading it twice gives the same value). -/
theorem getNrBodies_spec (env : MorseEnvironment) (pw lw aw ow : ℝ) (sp : MorseStateSpace)
    (h : mkMorseStateSpace (some env) pw lw aw ow = Except.ok sp) :
    sp.getNrBodies = env.rigidBodies ∧ sp.getNrBodies = sp.getNrBodies := by
  rw [Lemmas.mkMorseStateSpace_some] at h
  by_cases h0 : env.rigidBodies = 0
  · rw [if_pos h0] at h
    exact Except.noConfusion h
  · rw [if_neg h0] at h
    rw [Except.ok.injEq] at h
    subst h
    exact ⟨rfl, rfl⟩

/-- Witness for C9 at the concrete one-body environment `sampleEnv`. -/
theorem getNrBodies_spec_witness :
    (MorseStateSpace.mk sampleEnv
        (List.replicate sampleEnv.rigidBodies (bodySubspaces 1 (1 / 2) (1 / 2) 1)).flatten
        sampleEnv.boundingVolume symmetricUnitBounds symmetricUnitBounds).getNrBodies =
      sampleEnv.rigidBodies ∧
    (MorseStateSpace.mk sampleEnv
        (List.replicate sampleEnv.rigidBodies (bodySubspaces 1 (1 / 2) (1 / 2) 1)).flatten
        sampleEnv.boundingVolume symmetricUnitBounds symmetricUnitBounds).getNrBodies =
      (MorseStateSpace.mk sampleEnv
        (List.replicate sampleEnv.rigidBodies (bodySubspaces 1 (1 / 2) (1 / 2) 1)).flatten
        sampleEnv.boundingVolume symmetricUnitBounds symmetricUnitBounds).getNrBodies :=
  getNrBodies_spec sampleEnv 1 (1 / 2) (1 / 2) 1 _ rfl

/-- C4: for `t ∈ [0, 1]`, `interpolate` sends every position,
linear-velocity and angular-velocity child (offsets `k < 3` of a body) to
the componentwise linear interpolation `from + t*(to - from)`, and every
orientation child (offset 3) to the spherical shortest-arc interpolation
with sign flip on negative dot product followed by renormalization
(`so3Interpolate`). -/
theorem interpolate_per_subspace (a b : MorseState) (t : ℝ) (_h0 : 0 ≤ t) (_h1 : t ≤ 1)
    (body k : ℕ) (_hk : k < 3) (va vb : Fin 3 → ℝ) (qa qb : SO3State) :
    (a.components[4 * body + k]? = some (ChildState.rv va) →
      b.components[4 * body + k]? = some (ChildState.rv vb) →
      (interpolate a b t).components[4 * body + k]? =
        some (ChildState.rv (lerp3 va vb t))) ∧
    (a.components[4 * body + 3]? = some (ChildState.so3 qa) →
      b.components[4 * body + 3]? = some (ChildState.so3 qb) →
      (interpolate a b t).components[4 * body + 3]? =
        some (ChildState.so3 (so3Interpolate qa qb t))) := by
  constructor
  · intro ha hb
    exact Lemmas.zipWith_getElem_some ha hb
  · intro ha hb
    exact Lemmas.zipWith_getElem_some ha hb

/-- Witness for C4 at the concrete states `sampleA`, `sampleB` and
`t = 1/2`. -/
theorem interpolate_per_subspace_witness :
    ((0 : ℝ) ≤ 1 / 2 ∧ (1 : ℝ) / 2 ≤ 1) ∧
    (sampleA.components[4 * 0 + 0]? = some (ChildState.rv zeroVec) →
      sampleB.components[4 * 0 + 0]? = some (ChildState.rv zeroVec) →
      (interpolate sampleA sampleB (1 / 2)).components[4 * 0 + 0]? =
        some (ChildState.rv (lerp3 zeroVec zeroVec (1 / 2)))) ∧
    (sampleA.components[4 * 0 + 3]? = some (ChildState.so3 qId) →
      sampleB.components[4 * 0 + 3]? = some (ChildState.so3 qIdNeg) →
      (interpolate sampleA sampleB (1 / 2)).components[4 * 0 + 3]? =
        some (ChildState.so3 (so3Interpolate qId qIdNeg (1 / 2)))) := by
  have h := interpolate_per_subspace sampleA sampleB (1 / 2) (by norm_num) (by norm_num)
    0 0 (by norm_num) zeroVec zeroVec qId qIdNeg
  exact ⟨⟨by norm_num, by norm_num⟩, h.1, h.2⟩

/-- C5: after every `interpolate` call, the output state's `validCollision`
flag is `true`, whatever the endpoints' flags were. -/
theorem interpolate_validCollision (a b : MorseState) (t : ℝ) :
    (interpolate a b t).validCollision = true :=
  rfl

namespace Lemmas

/-- The components of an interpolated state. -/
theorem interpolate_components (a b : MorseState) (t : ℝ) :
    (interpolate a b t).components =
      List.zipWith (childInterpolate t) a.components b.components :=
  rfl

/-- Linear interpolation at `t = 0` returns the left endpoint. -/
theorem lerp3_zero (va vb : Fin 3 → ℝ) : lerp3 va vb 0 = va := by
  funext i
  unfold lerp3
  ring

/-- Linear interpolation at `t = 1` returns the right endpoint. -/
theorem lerp3_one (va vb : Fin 3 → ℝ) : lerp3 va vb 1 = vb := by
  funext i
  unfold lerp3
  ring

/-- A zipWith read past the left list is `none`. -/
theorem zipWith_getElem_none_left {α β γ : Type} {f : α → β → γ} {l1 : List α}
    {l2 : List β} {i : ℕ} (h : l1.length ≤ i) : (List.zipWith f l1 l2)[i]? = none :=
  List.getElem?_eq_none (by rw [List.length_zipWith]; omega)

/-- A zipWith read past the right list is `none`. -/
theorem zipWith_getElem_none_right {α β γ : Type} {f : α → β → γ} {l1 : List α}
    {l2 : List β} {i : ℕ} (h : l2.length ≤ i) : (List.zipWith f l1 l2)[i]? = none :=
  List.getElem?_eq_none (by rw [List.length_zipWith]; omega)

/-- Renormalizing an already-unit quaternion changes nothing. -/
theorem quatNormalize_unit {q : SO3State} (h : quatNormSq q = 1) :
    quatNormalize q = q := by
  unfold quatNormalize
  rw [h, Real.sqrt_one, if_neg one_ne_zero]
  ext <;> simp

/-- The combination `1 • p + 0 • q`. -/
theorem quatScaleAdd_one_zero (p q : SO3State) : quatScaleAdd 1 p 0 q = p := by
  unfold quatScaleAdd
  ext <;> simp

/-- The combination `0 • p + 1 • q`. -/
theorem quatScaleAdd_zero_one (p q : SO3State) : quatScaleAdd 0 p 1 q = q := by
  unfold quatScaleAdd
  ext <;> simp

/-- The dot product of two unit quaternions is at most 1. -/
theorem quatDot_le_one {qa qb : SO3State} (ha : quatNormSq qa = 1)
    (hb : quatNormSq qb = 1) : quatDot qa qb ≤ 1 := by
  unfold quatNormSq quatDot at ha hb
  unfold quatDot
  nlinarith [sq_nonneg (qa.x - qb.x), sq_nonneg (qa.y - qb.y), sq_nonneg (qa.z - qb.z),
    sq_nonneg (qa.w - qb.w)]

/-- Unit quaternions with dot product 1 coincide. -/
theorem unit_quat_dot_one {qa qb : SO3State} (ha : quatNormSq qa = 1)
    (hb : quatNormSq qb = 1) (hd : quatDot qa qb = 1) : qa = qb := by
  have key : (qa.x - qb.x) ^ 2 + (qa.y - qb.y) ^ 2 + (qa.z - qb.z) ^ 2 +
      (qa.w - qb.w) ^ 2 = 0 := by
    have e : (qa.x - qb.x) ^ 2 + (qa.y - qb.y) ^ 2 + (qa.z - qb.z) ^ 2 +
        (qa.w - qb.w) ^ 2 = quatDot qa qa + quatDot qb qb - 2 * quatDot qa qb := by
      unfold quatDot
      ring
    unfold quatNormSq at ha hb
    rw [e, ha, hb, hd]
    ring
  have hx2 : (qa.x - qb.x) ^ 2 = 0 :=
    le_antisymm
      (by linarith [sq_nonneg (qa.y - qb.y), sq_nonneg (qa.z - qb.z),
        sq_nonneg (qa.w - qb.w)])
      (sq_nonneg _)
  have hy2 : (qa.y - qb.y) ^ 2 = 0 :=
    le_antisymm
      (by linarith [sq_nonneg (qa.x - qb.x), sq_nonneg (qa.z - qb.z),
        sq_nonneg (qa.w - qb.w)])
      (sq_nonneg _)
  have hz2 : (qa.z - qb.z) ^ 2 = 0 :=
    le_antisymm
      (by linarith [sq_nonneg (qa.x - qb.x), sq_nonneg (qa.y - qb.y),
        sq_nonneg (qa.w - qb.w)])
      (sq_nonneg _)
  have hw2 : (qa.w - qb.w) ^ 2 = 0 :=
    le_antisymm
      (by linarith [sq_nonneg (qa.x - qb.x), sq_nonneg (qa.y - qb.y),
        sq_nonneg (qa.z - qb.z)])
      (sq_nonneg _)
  ext
  · exact sub_eq_zero.mp (sq_eq_zero_iff.mp hx2)
  · exact sub_eq_zero.mp (sq_eq_zero_iff.mp hy2)
  · exact sub_eq_zero.mp (sq_eq_zero_iff.mp hz2)
  · exact sub_eq_zero.mp (sq_eq_zero_iff.mp hw2)

/-- The spherical interpolant at `t = 0` is the (unit) left endpoint. -/
theorem so3Interpolate_zero {qa : SO3State} (qb : SO3State) (ha : quatNormSq qa = 1) :
    so3Interpolate qa qb 0 = qa := by
  unfold so3Interpolate
  by_cases hs : Real.sin (so3Theta qa qb) = 0
  · rw [if_pos hs]
  · rw [if_neg hs]
    have e1 : (1 - (0 : ℝ)) * so3Theta qa qb = so3Theta qa qb := by ring
    have e2 : (0 : ℝ) * so3Theta qa qb = 0 := by ring
    rw [e1, e2, Real.sin_zero, zero_div, div_self hs, quatScaleAdd_one_zero,
      quatNormalize_unit ha]

/-- The spherical interpolant at `t = 1` is the (unit) right endpoint when
the endpoints' dot product is nonnegative (no sign flip happens). -/
theorem so3Interpolate_one {qa qb : SO3State} (ha : quatNormSq qa = 1)
    (hb : quatNormSq qb = 1) (hd : 0 ≤ quatDot qa qb) : so3Interpolate qa qb 1 = qb := by
  have hflip : so3Flip qa qb = qb := by
    unfold so3Flip
    rw [if_neg (not_lt.mpr hd)]
  have htheta : so3Theta qa qb = Real.arccos (quatDot qa qb) := by
    unfold so3Theta
    rw [hflip]
  unfold so3Interpolate
  by_cases hs : Real.sin (so3Theta qa qb) = 0
  · rw [if_pos hs]
    rw [htheta, Real.sin_arccos] at hs
    have h1d : 1 - quatDot qa qb ^ 2 ≤ 0 := Real.sqrt_eq_zero'.mp hs
    have hle := quatDot_le_one ha hb
    have hone : quatDot qa qb = 1 := by nlinarith
    exact unit_quat_dot_one ha hb hone
  · rw [if_neg hs, hflip]
    have e1 : (1 - (1 : ℝ)) * so3Theta qa qb = 0 := by ring
    rw [e1, Real.sin_zero, zero_div, one_mul, div_self hs, quatScaleAdd_zero_one,
      quatNormalize_unit hb]

/-- The modelled spherical interpolation between the identity quaternion and
its sign flip keeps the identity for every `t` (the flip makes the two
endpoints coincide and the interpolation degenerates). -/
theorem so3Interpolate_qId_qIdNeg (t : ℝ) : so3Interpolate qId qIdNeg t = qId := by
  have hflip : so3Flip qId qIdNeg = SO3State.mk 0 0 0 1 := by
    unfold so3Flip
    rw [if_pos (by norm_num [quatDot, qId, qIdNeg])]
    unfold quatNeg qIdNeg
    ext <;> norm_num
  have htheta : so3Theta qId qIdNeg = 0 := by
    unfold so3Theta
    rw [hflip]
    have hdot : quatDot qId (SO3State.mk 0 0 0 1) = 1 := by norm_num [quatDot, qId]
    rw [hdot, Real.arccos_one]
  unfold so3Interpolate
  rw [htheta, Real.sin_zero, if_pos rfl]

end Lemmas

/-- C6 (amended): for all valid pairs — states of equal layout whose
orientation children are unit quaternions — `interpolate(a, b, 0)`
reproduces `a`'s sub-states exactly, unconditionally; and
`interpolate(a, b, 1)` reproduces `b`'s sub-states provided each body's
endpoint quaternions have nonnegative dot product (no sign flip is needed —
the proviso attaches to `t = 1` only); when some dot product is negative,
the `t = 1` orientation is the sign-flipped quaternion, so exactness at
`t = 1` holds only up to quaternion sign. -/
theorem interpolate_endpoints (a b : MorseState)
    (hlen : a.components.length = b.components.length)
    (hkind : ∀ (i : ℕ) (ca cb : ChildState), a.components[i]? = some ca →
      b.components[i]? = some cb → sameKind ca cb)
    (hunit : ∀ (i : ℕ) (qa qb : SO3State), a.components[i]? = some (ChildState.so3 qa) →
      b.components[i]? = some (ChildState.so3 qb) →
      quatNormSq qa = 1 ∧ quatNormSq qb = 1) :
    (interpolate a b 0).components = a.components ∧
    ((∀ (i : ℕ) (qa qb : SO3State), a.components[i]? = some (ChildState.so3 qa) →
        b.components[i]? = some (ChildState.so3 qb) → 0 ≤ quatDot qa qb) →
      (interpolate a b 1).components = b.components) := by
  constructor
  · apply List.ext_getElem?
    intro i
    rw [Lemmas.interpolate_components]
    rcases hx : a.components[i]? with _ | ca
    · have hna : a.components.length ≤ i := List.getElem?_eq_none_iff.mp hx
      exact Lemmas.zipWith_getElem_none_left hna
    · have hia : i < a.components.length := by
        by_contra hge
        rw [List.getElem?_eq_none (by omega)] at hx
        exact Option.noConfusion hx
      rcases hy : b.components[i]? with _ | cb
      · have hnb : b.components.length ≤ i := List.getElem?_eq_none_iff.mp hy
        exfalso
        omega
      · rw [Lemmas.zipWith_getElem_some hx hy, Option.some.injEq]
        have hk := hkind i ca cb hx hy
        cases ca with
        | rv va =>
          cases cb with
          | rv vb => simp [childInterpolate, Lemmas.lerp3_zero]
          | so3 qb2 => simp [sameKind] at hk
        | so3 qa2 =>
          cases cb with
          | rv vb => simp [sameKind] at hk
          | so3 qb2 =>
            obtain ⟨h1, h2⟩ := hunit i qa2 qb2 hx hy
            simp [childInterpolate, Lemmas.so3Interpolate_zero qb2 h1]
  · intro hdot
    apply List.ext_getElem?
    intro i
    rw [Lemmas.interpolate_components]
    rcases hy : b.components[i]? with _ | cb
    · have hnb : b.components.length ≤ i := List.getElem?_eq_none_iff.mp hy
      exact Lemmas.zipWith_getElem_none_right hnb
    · have hib : i < b.components.length := by
        by_contra hge
        rw [List.getElem?_eq_none (by omega)] at hy
        exact Option.noConfusion hy
      rcases hx : a.components[i]? with _ | ca
      · have hna : a.components.length ≤ i := List.getElem?_eq_none_iff.mp hx
        exfalso
        omega
      · rw [Lemmas.zipWith_getElem_some hx hy, Option.some.injEq]
        have hk := hkind i ca cb hx hy
        cases ca with
        | rv va =>
          cases cb with
          | rv vb => simp [childInterpolate, Lemmas.lerp3_one]
          | so3 qb2 => simp [sameKind] at hk
        | so3 qa2 =>
          cases cb with
          | rv vb => simp [sameKind] at hk
          | so3 qb2 =>
            obtain ⟨h1, h2⟩ := hunit i qa2 qb2 hx hy
            simp [childInterpolate, Lemmas.so3Interpolate_one h1 h2 (hdot i qa2 qb2 hx hy)]

/-- C6 counterexample: the one-body states `sampleA` and `sampleB` are valid
(laid out, unit orientation quaternions), yet `interpolate(sampleA, sampleB, 1)`
differs from `sampleB` in the orientation sub-state: the endpoint
quaternions have dot product -1 < 0, so the sign flip makes the `t = 1`
result the identity quaternion rather than `sampleB`'s negated identity. -/
theorem interpolate_endpoint_one_cex :
    MorseLayout 1 sampleA ∧ MorseLayout 1 sampleB ∧
    quatNormSq qId = 1 ∧ quatNormSq qIdNeg = 1 ∧ quatDot qId qIdNeg < 0 ∧
    (interpolate sampleA sampleB 1).components ≠ sampleB.components := by
  refine ⟨Lemmas.morseLayout_one zeroVec zeroVec zeroVec qId true,
    Lemmas.morseLayout_one zeroVec zeroVec zeroVec qIdNeg true,
    by norm_num [quatNormSq, quatDot, qId],
    by norm_num [quatNormSq, quatDot, qIdNeg],
    by norm_num [quatDot, qId, qIdNeg], ?_⟩
  have hl : (List.zipWith (childInterpolate 1) sampleA.components sampleB.components)[3]? =
      some (childInterpolate 1 (ChildState.so3 qId) (ChildState.so3 qIdNeg)) :=
    Lemmas.zipWith_getElem_some rfl rfl
  have hl2 : (interpolate sampleA sampleB 1).components[3]? =
      some (ChildState.so3 (so3Interpolate qId qIdNeg 1)) := by
    rw [Lemmas.interpolate_components]
    exact hl
  intro h
  rw [h] at hl2
  rw [Lemmas.so3Interpolate_qId_qIdNeg] at hl2
  have hr : sampleB.components[3]? = some (ChildState.so3 qIdNeg) := rfl
  rw [hr, Option.some.injEq] at hl2
  have hw := congrArg SO3State.w ((ChildState.so3.injEq qIdNeg qId).mp hl2)
  norm_num [qId, qIdNeg] at hw

/-- Witness for the amended C6 at the pair `(sampleA, sampleA)`. -/
theorem interpolate_endpoints_witness :
    (interpolate sampleA sampleA 0).components = sampleA.components ∧
    ((∀ (i : ℕ) (qa qb : SO3State),
        sampleA.components[i]? = some (ChildState.so3 qa) →
        sampleA.components[i]? = some (ChildState.so3 qb) → 0 ≤ quatDot qa qb) →
      (interpolate sampleA sampleA 1).components = sampleA.components) := by
  have hlen4 : sampleA.components.length = 4 := rfl
  apply interpolate_endpoints sampleA sampleA rfl
  · intro i ca cb h1 h2
    rw [h1, Option.some.injEq] at h2
    subst h2
    cases ca
    · simp [sameKind]
    · simp [sameKind]
  · intro i qa qb h1 h2
    have hcases : i = 0 ∨ i = 1 ∨ i = 2 ∨ i = 3 ∨ 4 ≤ i := by omega
    rcases hcases with h | h | h | h | h
    · subst h
      exact absurd h1 (by simp [sampleA])
    · subst h
      exact absurd h1 (by simp [sampleA])
    · subst h
      exact absurd h1 (by simp [sampleA])
    · subst h
      have h3 : sampleA.components[3]? = some (ChildState.so3 qId) := rfl
      rw [h3, Option.some.injEq] at h1 h2
      simp only [ChildState.so3.injEq] at h1 h2
      subst h1
      subst h2
      exact ⟨by norm_num [quatNormSq, quatDot, qId],
        by norm_num [quatNormSq, quatDot, qId]⟩
    · rw [List.getElem?_eq_none (by omega)] at h1
      exact Option.noConfusion h1

end OmplMorse
